import Mathlib

/-!
Verification of the plugin configuration popup (lib/gui/popup_configure.py).

The development shallowly embeds the data flow of the popup: the configuration
collaborator is a record of its section list, its per-section defaults and its
per-section stored values; Python dictionaries are association lists with the
first-match lookup and in-place overwrite of dict assignment; tkinter windows
are numbered identifiers; values are strings (the persisted format is textual
and the popup converts edited values with str before writing them).
-/

/-- Lookup in an association list: the Python dict read `d[k]` / `d.get(k)`,
returning the first (in a dict, the only) binding of the key. -/
def alookup {α : Type} [DecidableEq α] {β : Type} : List (α × β) → α → Option β
  | [], _ => none
  | p :: rest, k => if p.1 = k then some p.2 else alookup rest k

/-- Assignment in an association list: the Python dict write `d[k] = v`, which
overwrites the existing binding in place and otherwise appends a new one. -/
def setAssoc {α : Type} [DecidableEq α] {β : Type} : List (α × β) → α → β → List (α × β)
  | [], k, v => [(k, v)]
  | p :: rest, k, v => if p.1 = k then (k, v) :: rest else p :: setAssoc rest k v

/-- Lexicographic comparison of char lists by code point, as Python compares
strings. -/
def charListLe : List Char → List Char → Bool
  | [], _ => true
  | _ :: _, [] => false
  | a :: as, b :: bs => if a < b then true else if a = b then charListLe as bs else false

/-- Python string comparison `a <= b`: lexicographic over code points. -/
def strLe (a b : String) : Bool := charListLe a.data b.data

/-- The category of a section name: `section.split(".")[0]`, the text before
the first delimiter, the whole name when it has none. -/
def sectionCategory (s : String) : String := ⟨s.data.takeWhile (fun c => c != '.')⟩

/-- The membership test `"." in section`. -/
def hasDelim (s : String) : Bool := s.data.contains '.'

/-- Metadata of one option in `config.defaults[section]`: its default value and
its help text. -/
structure OptDefault where
  default : String
  helptext : String
deriving Repr, DecidableEq

/-- One section of `config.defaults`: the `"helptext"` entry of the options
dict, which is a plain string, plus the remaining option entries in order. -/
structure SectionDefaults where
  helptext : String
  opts : List (String × OptDefault)
deriving Repr, DecidableEq

/-- The state of the configuration collaborator that the popup reads:
`config.config.sections()`, `config.defaults`, and the per-section stored
values exposed as `config.config_dict` after `config.section` is selected. -/
structure Config where
  sections : List String
  defaults : List (String × SectionDefaults)
  stored : List (String × List (String × String))
deriving Repr, DecidableEq

/-- Stored values of one section: `config.config_dict` with `config.section`
set to `s`. -/
def storedFor (c : Config) (s : String) : List (String × String) :=
  (alookup c.stored s).getD []

/-- Metadata of one option in the GUI snapshot: the defaults metadata plus the
displayed value filled in by get_config. The `selected` field is the live edit
variable. Modelled from the spec: the edit variable itself is created by the
external ControlPanel collaborator (lib/gui/control_helper, not under src/),
which binds one edit variable per option to its displayed value; the spec
states that authoritative state remains the live widget bindings. -/
structure OptGui where
  default : String
  helptext : String
  value : String
  selected : String
deriving Repr, DecidableEq

/-- Options of one section as shown in the GUI. -/
abbrev OptsGui := List (String × OptGui)

/-- The two-level grouping built by get_config: category to section to
options. -/
abbrev GuiDict := List (String × List (String × OptsGui))

/-- The per-option body of the get_config loop: for every non-helptext key,
`options[key]["value"] = config.config_dict.get(key, options[key]["default"])`.
The edit variable starts at the displayed value (see OptGui). -/
def fillOptions (c : Config) (sect : String) (sd : SectionDefaults) : OptsGui :=
  (sd.opts.filter (fun p => p.1 != "helptext")).map (fun p =>
    let v := (alookup (storedFor c sect) p.1).getD p.2.default
    (p.1, ⟨p.2.default, p.2.helptext, v, v⟩))

/-- The per-section body of the get_config loop:
`conf.setdefault(category, dict())[section] = options`. -/
def getConfigStep (c : Config) (acc : GuiDict) (sect : String) (sd : SectionDefaults) :
    GuiDict :=
  setAssoc acc (sectionCategory sect)
    (setAssoc ((alookup acc (sectionCategory sect)).getD []) sect (fillOptions c sect sd))

/-- The get_config loop over `config.config.sections()`, accumulating the
grouping and `plugin_info`; a section absent from `config.defaults` is the
KeyError of `self.config.defaults[section]`. -/
def getConfigAux (c : Config) (acc : GuiDict) (pinfo : List (String × String)) :
    List String → Option (GuiDict × List (String × String))
  | [] => some (acc, pinfo)
  | sect :: rest =>
    match alookup c.defaults sect with
    | none => none
    | some sd =>
        getConfigAux c (getConfigStep c acc sect sd) (setAssoc pinfo sect sd.helptext) rest

/-- ConfigurePlugins.get_config: group the sections by category, record each
section help text in plugin_info, and fill the displayed value of every
non-helptext option from the stored value, falling back to its default. -/
def get_config (c : Config) : Option (GuiDict × List (String × String)) :=
  getConfigAux c [] [] c.sections

/-- Lookup of the options of one section in the GUI snapshot, through its
category. -/
def guiSection (gui : GuiDict) (s : String) : Option OptsGui :=
  (alookup gui (sectionCategory s)).bind (fun inner => alookup inner s)

/-- Lookup of one option of one section in the GUI snapshot. -/
def guiOption (gui : GuiDict) (s k : String) : Option OptGui :=
  (guiSection gui s).bind (fun opts => alookup opts k)

/-- The categories of the GUI snapshot that contain a given section name. -/
def categoriesContaining (gui : GuiDict) (s : String) : List String :=
  (gui.filter (fun p => p.2.any (fun q => q.1 == s))).map Prod.fst

/-- The category order of ConfigurePlugins.build: the sorted category keys,
with `"global"` popped from its place and reinserted at the front when
present. -/
def buildCategories (gui : GuiDict) : List String :=
  let categories := List.insertionSort (fun a b => strLe a b = true) (gui.map Prod.fst)
  if "global" ∈ categories then "global" :: categories.erase "global" else categories

/-- A page built by build_page: either a nested notebook with one sub-tab per
plugin, or the options of the single plugin rendered directly. The ControlPanel
and the tab titles are rendering details of external collaborators; a tab is
identified here by its plugin section name. -/
inductive Page where
  | nested (tabs : List (String × OptsGui)) : Page
  | single (opts : OptsGui) : Page
deriving Repr, DecidableEq

/-- Whether a page is a nested notebook of sub-tabs. -/
def Page.isNested : Page → Bool
  | Page.nested _ => true
  | Page.single _ => false

/-- ConfigurePlugins.build_page: sort the plugin keys of the category; if any
plugin key differs from the category name, build a nested notebook with one
sub-tab per plugin, otherwise render the options of `plugins[0]` directly
(none models the IndexError of `plugins[0]` on an empty category). -/
def build_page (gui : GuiDict) (category : String) : Option Page :=
  let plugins := List.insertionSort (fun a b => strLe a b = true)
    (((alookup gui category).getD []).map Prod.fst)
  if plugins.any (fun p => p != category) then
    some (Page.nested (plugins.map (fun p =>
      (p, (alookup ((alookup gui category).getD []) p).getD []))))
  else
    match plugins with
    | [] => none
    | p :: _ => some (Page.single ((alookup ((alookup gui category).getD []) p).getD []))

/-- ConfigurePlugins.build: one tab per category, in buildCategories order. -/
def build (gui : GuiDict) : Option (List (String × Page)) :=
  (buildCategories gui).mapM (fun cat => (build_page gui cat).map (fun p => (cat, p)))

/-- The first element of the reset lookup pair:
`lookup = [section.split(".")[0], section] if "." in section else [section, section]`. -/
def resetL0 (s : String) : String :=
  if hasDelim s then sectionCategory s else s

/-- The two-step lookup of ConfigurePlugins.reset:
`self.config_dict_gui[lookup[0]][lookup[1]]`. -/
def resetLookup (gui : GuiDict) (s : String) : Option OptsGui :=
  (alookup gui (resetL0 s)).bind (fun inner => alookup inner s)

/-- One assignment `tk_var.set(default)` of reset, addressed through the
two-step lookup; none models the KeyError of a failed dict index. -/
def setSelected (gui : GuiDict) (s k v : String) : Option GuiDict :=
  match alookup gui (resetL0 s) with
  | none => none
  | some inner =>
    match alookup inner s with
    | none => none
    | some opts =>
      match alookup opts k with
      | none => none
      | some og =>
        some (setAssoc gui (resetL0 s)
          (setAssoc inner s (setAssoc opts k { og with selected := v })))

/-- The inner reset loop over the items of one defaults section, skipping the
helptext entry. -/
def resetItems (s : String) : GuiDict → List (String × OptDefault) → Option GuiDict
  | gui, [] => some gui
  | gui, (k, od) :: rest =>
    if k = "helptext" then resetItems s gui rest
    else
      match setSelected gui s k od.default with
      | none => none
      | some gui2 => resetItems s gui2 rest

/-- The outer reset loop over `config.defaults.items()`. -/
def resetSections : GuiDict → List (String × SectionDefaults) → Option GuiDict
  | gui, [] => some gui
  | gui, (s, sd) :: rest =>
    match resetItems s gui sd.opts with
    | none => none
    | some gui2 => resetSections gui2 rest

/-- ConfigurePlugins.reset: set the live edit variable of every non-helptext
option of every defaults section back to its default value. -/
def reset (c : Config) (gui : GuiDict) : Option GuiDict :=
  resetSections gui c.defaults

/-- Inner fold of the flattening dict comprehension of save_config. -/
def insertAll (acc : List (String × OptsGui)) : List (String × OptsGui) → List (String × OptsGui)
  | [] => acc
  | q :: rest => insertAll (setAssoc acc q.1 q.2) rest

/-- Outer fold of the flattening dict comprehension of save_config. -/
def flattenAux (acc : List (String × OptsGui)) : GuiDict → List (String × OptsGui)
  | [] => acc
  | e :: rest => flattenAux (insertAll acc e.2) rest

/-- The dict comprehension of save_config: the flat section to options mapping
rebuilt from the two-level GUI grouping. -/
def flattenGui (gui : GuiDict) : List (String × OptsGui) :=
  flattenAux [] gui

/-- The inner save_config loop over the items of one defaults section: skip the
helptext entry, look the option up in the flattened mapping (none models the
KeyError) and write the string form of its live edit value into the section of
the fresh configuration. The help text comment line that precedes each option
is written by the external formatter and is not a stored value. -/
def saveItems (options : List (String × OptsGui)) (s : String) :
    List (String × String) → List (String × OptDefault) → Option (List (String × String))
  | es, [] => some es
  | es, (k, _) :: rest =>
    if k = "helptext" then saveItems options s es rest
    else
      match (alookup options s).bind (fun so => alookup so k) with
      | none => none
      | some og => saveItems options s (setAssoc es k og.selected) rest

/-- The outer save_config loop over `config.defaults.items()`: insert each
section into the fresh configuration and write its option lines. -/
def saveSections (options : List (String × OptsGui)) :
    List (String × List (String × String)) → List (String × SectionDefaults) →
      Option (List (String × List (String × String)))
  | acc, [] => some acc
  | acc, (s, sd) :: rest =>
    match saveItems options s [] sd.opts with
    | none => none
    | some es => saveSections options (setAssoc acc s es) rest

/-- ConfigurePlugins.save_config: flatten the GUI grouping, write a fresh
configuration holding one section per defaults entry whose stored option values
are the string forms of the live edit values, and install it as the
collaborator configuration before persisting it to file. -/
def save_config (c : Config) (gui : GuiDict) : Option Config :=
  let options := flattenGui gui
  match saveSections options [] c.defaults with
  | none => none
  | some newStored =>
    some { sections := c.defaults.map Prod.fst, defaults := c.defaults, stored := newStored }

/-- Application of a family of edited values to the live edit variables of the
GUI snapshot, one per section and option key. -/
def applyEdits (e : String → String → String) (gui : GuiDict) : GuiDict :=
  gui.map (fun p => (p.1, p.2.map (fun sp =>
    (sp.1, sp.2.map (fun op => (op.1, { op.2 with selected := e sp.1 op.1 }))))))

/-- The module-level POPUP registry together with the window identifiers it has
handed out: `popup` is the registry dict, `destroyed` the windows on which
destroy was called, `next` the next fresh window identifier. -/
structure PopupState where
  popup : List (String × Nat)
  destroyed : List Nat
  next : Nat
deriving Repr, DecidableEq

/-- The initial module state: an empty POPUP registry. -/
def initPopup : PopupState := ⟨[], [], 0⟩

/-- The windows that are created and not destroyed. -/
def liveWindows (st : PopupState) : List Nat :=
  (List.range st.next).filter (fun w => decide (w ∉ st.destroyed))

/-- popup_config: when the registry is non-empty, destroy the window registered
under its first key and delete that key; then construct a fresh dialog window
and register it under the configuration identifier `config[0]`. -/
def popup_config (name : String) (st : PopupState) : PopupState :=
  let st1 :=
    match st.popup with
    | [] => st
    | (_, w) :: rest => { st with popup := rest, destroyed := w :: st.destroyed }
  { popup := setAssoc st1.popup name st1.next
    destroyed := st1.destroyed
    next := st1.next + 1 }

/-- A sequence of popup_config calls starting from the initial module state. -/
def openAll (ns : List String) : PopupState :=
  ns.foldl (fun st n => popup_config n st) initPopup

/-- The dialog together with its collaborator: the configuration object, a
count of the file writes performed through `config.save_config()`, the GUI
snapshot, and whether the window is open. -/
structure Dialog where
  cfg : Config
  fileSaves : Nat
  gui : GuiDict
  isOpen : Bool
deriving Repr, DecidableEq

/-- The Cancel button command: `self.destroy`, closing the window. -/
def cancel (d : Dialog) : Dialog := { d with isOpen := false }

/-- The OK button command: save_config installs the fresh configuration,
persists it to file and closes the window. -/
def okAction (d : Dialog) : Option Dialog :=
  match save_config d.cfg d.gui with
  | none => none
  | some c2 => some { d with cfg := c2, fileSaves := d.fileSaves + 1, isOpen := false }

/-- Well-formedness of the GUI grouping: category keys are distinct, section
keys inside one category are distinct, and every section sits under the
category derived from its name. -/
def GuiWF (gui : GuiDict) : Prop :=
  (gui.map Prod.fst).Nodup ∧
  ∀ p ∈ gui, (p.2.map Prod.fst).Nodup ∧ ∀ q ∈ p.2, sectionCategory q.1 = p.1

/-- Invariant of the POPUP registry: the live windows are exactly the
registered ones, at most one dialog is registered, and every destroyed window
identifier was handed out earlier. -/
def PopupInv (st : PopupState) : Prop :=
  liveWindows st = st.popup.map Prod.snd ∧ st.popup.length ≤ 1 ∧
  ∀ d ∈ st.destroyed, d < st.next

/-- A snapshot with one category holding a single plugin whose section name
differs from the category name. -/
def nestConfig : Config :=
  { sections := ["extract.align"],
    defaults := [("extract.align", ⟨"ht", [("opt1", ⟨"5", "o1"⟩)]⟩)],
    stored := [("extract.align", [])] }

/-- The GUI snapshot loaded from nestConfig. -/
def nestGui : GuiDict := ((get_config nestConfig).getD ([], [])).1

/-- A small concrete configuration with a global section and one category
holding two plugins, one stored value present and one absent per section. -/
def demoConfig : Config :=
  { sections := ["global", "extract.one", "extract.two"],
    defaults :=
      [("global", ⟨"gh", [("opt1", ⟨"5", "h1"⟩), ("opt2", ⟨"a", "h2"⟩)]⟩),
       ("extract.one", ⟨"eh", [("opt1", ⟨"x", "h3"⟩)]⟩),
       ("extract.two", ⟨"fh", [("optb", ⟨"y", "h4"⟩)]⟩)],
    stored := [("global", [("opt1", "7")]), ("extract.one", []),
      ("extract.two", [("optb", "z")])] }

/-- The GUI grouping loaded from demoConfig. -/
def demoGui : GuiDict := ((get_config demoConfig).getD ([], [])).1

/-- The plugin info loaded from demoConfig. -/
def demoPinfo : List (String × String) := ((get_config demoConfig).getD ([], [])).2

/-- The GUI grouping of demoConfig after reset. -/
def demoResetGui : GuiDict := (reset demoConfig demoGui).getD []

/-- The extract category of demoGui. -/
def demoExtractInner : List (String × OptsGui) := (alookup demoGui "extract").getD []

theorem alookup_setAssoc_self {α : Type} [DecidableEq α] {β : Type}
    (l : List (α × β)) (k : α) (v : β) : alookup (setAssoc l k v) k = some v := by
  induction l with
  | nil => simp [alookup, setAssoc]
  | cons p rest ih =>
    by_cases h : p.1 = k
    · simp [alookup, setAssoc, h]
    · simp [alookup, setAssoc, h, ih]

theorem alookup_setAssoc_ne {α : Type} [DecidableEq α] {β : Type}
    (l : List (α × β)) (k k' : α) (v : β) (h : k' ≠ k) :
    alookup (setAssoc l k v) k' = alookup l k' := by
  have hk : ¬ k = k' := fun h2 => h h2.symm
  induction l with
  | nil => simp [alookup, setAssoc, hk]
  | cons p rest ih =>
    by_cases h1 : p.1 = k
    · have hp : ¬ p.1 = k' := h1 ▸ hk
      simp [alookup, setAssoc, h1, hk, hp]
    · simp [alookup, setAssoc, h1, ih]

theorem alookup_mem {α : Type} [DecidableEq α] {β : Type}
    {l : List (α × β)} {k : α} {v : β} (h : alookup l k = some v) : (k, v) ∈ l := by
  induction l with
  | nil => simp [alookup] at h
  | cons p rest ih =>
    rcases p with ⟨a, b⟩
    by_cases h1 : a = k
    · simp only [alookup, if_pos h1, Option.some.injEq] at h
      subst h1
      subst h
      exact List.mem_cons_self _ _
    · simp only [alookup, if_neg h1] at h
      exact List.mem_cons_of_mem _ (ih h)

theorem mem_setAssoc {α : Type} [DecidableEq α] {β : Type}
    {l : List (α × β)} {k : α} {v : β} {p : α × β} (h : p ∈ setAssoc l k v) :
    p = (k, v) ∨ p ∈ l := by
  induction l with
  | nil => simpa [setAssoc] using h
  | cons q rest ih =>
    by_cases h1 : q.1 = k
    · simp [setAssoc, h1] at h
      rcases h with h | h
      · exact Or.inl h
      · exact Or.inr (List.mem_cons_of_mem _ h)
    · simp [setAssoc, h1] at h
      rcases h with h | h
      · exact Or.inr (by simp [h])
      · rcases ih h with h2 | h2
        · exact Or.inl h2
        · exact Or.inr (List.mem_cons_of_mem _ h2)

theorem setAssoc_map_fst {α : Type} [DecidableEq α] {β : Type}
    (l : List (α × β)) (k : α) (v : β) :
    (setAssoc l k v).map Prod.fst =
      if k ∈ l.map Prod.fst then l.map Prod.fst else l.map Prod.fst ++ [k] := by
  induction l with
  | nil => simp [setAssoc]
  | cons p rest ih =>
    by_cases h1 : p.1 = k
    · simp [setAssoc, h1]
    · have h1' : ¬ k = p.1 := fun h2 => h1 h2.symm
      by_cases h2 : k ∈ rest.map Prod.fst
      · simp [setAssoc, h1, ih, h1', h2]
      · simp [setAssoc, h1, ih, h1', h2]

theorem setAssoc_nodup {α : Type} [DecidableEq α] {β : Type}
    {l : List (α × β)} (k : α) (v : β) (h : (l.map Prod.fst).Nodup) :
    ((setAssoc l k v).map Prod.fst).Nodup := by
  rw [setAssoc_map_fst]
  by_cases h1 : k ∈ l.map Prod.fst
  · simpa [h1] using h
  · simp only [h1, if_false]
    exact List.Nodup.append h (List.nodup_singleton k) (by simpa using h1)

theorem alookup_eq_none {α : Type} [DecidableEq α] {β : Type}
    (l : List (α × β)) (k : α) : alookup l k = none ↔ k ∉ l.map Prod.fst := by
  induction l with
  | nil => simp [alookup]
  | cons p rest ih =>
    by_cases h1 : p.1 = k
    · simp [alookup, h1]
    · have h1' : ¬ k = p.1 := fun h2 => h1 h2.symm
      constructor
      · intro hnone
        simp only [alookup, if_neg h1] at hnone
        simp [h1', ih.mp hnone]
      · intro hmem
        have h2 : k ∉ rest.map Prod.fst := by
          intro hk
          exact hmem (by simp [hk])
        simp [alookup, h1, ih.mpr h2]

theorem alookup_isSome_of_mem {α : Type} [DecidableEq α] {β : Type}
    (l : List (α × β)) (k : α) (h : k ∈ l.map Prod.fst) : (alookup l k).isSome := by
  cases h2 : alookup l k with
  | none => exact absurd ((alookup_eq_none l k).mp h2) (by simpa using h)
  | some v => rfl

theorem alookup_map_value {α : Type} [DecidableEq α] {β γ : Type}
    (l : List (α × β)) (f : α → β → γ) (k : α) :
    alookup (l.map (fun p => (p.1, f p.1 p.2))) k = (alookup l k).map (f k) := by
  induction l with
  | nil => simp [alookup]
  | cons p rest ih =>
    by_cases h1 : p.1 = k
    · simp [alookup, h1]
    · simp [alookup, h1, ih]

theorem charListLe_total : ∀ as bs : List Char, charListLe as bs = true ∨ charListLe bs as = true
  | [], _ => Or.inl rfl
  | _ :: _, [] => Or.inr rfl
  | a :: as, b :: bs => by
    rcases lt_trichotomy a b with h | h | h
    · exact Or.inl (by simp [charListLe, h])
    · subst h
      rcases charListLe_total as bs with h2 | h2
      · exact Or.inl (by simp [charListLe, h2])
      · exact Or.inr (by simp [charListLe, h2])
    · exact Or.inr (by simp [charListLe, h])

theorem charListLe_trans : ∀ as bs cs : List Char,
    charListLe as bs = true → charListLe bs cs = true → charListLe as cs = true
  | [], _, _, _, _ => rfl
  | _ :: _, [], _, h1, _ => by simp [charListLe] at h1
  | _ :: _, _ :: _, [], _, h2 => by simp [charListLe] at h2
  | a :: as, b :: bs, c :: cs, h1, h2 => by
    simp only [charListLe] at h1 h2 ⊢
    by_cases hab : a < b
    · by_cases hbc : b < c
      · simp [lt_trans hab hbc]
      · by_cases hbc2 : b = c
        · subst hbc2
          simp [hab]
        · simp [hbc, hbc2] at h2
    · by_cases hab2 : a = b
      · subst hab2
        simp only [lt_irrefl, if_false, if_pos rfl] at h1
        by_cases hbc : a < c
        · simp [hbc]
        · by_cases hbc2 : a = c
          · subst hbc2
            simp only [lt_irrefl, if_false, if_pos rfl] at h2 ⊢
            exact charListLe_trans as bs cs h1 h2
          · simp [hbc, hbc2] at h2
      · simp [hab, hab2] at h1

instance : IsTotal String (fun a b => strLe a b = true) :=
  ⟨fun a b => charListLe_total a.data b.data⟩

instance : IsTrans String (fun a b => strLe a b = true) :=
  ⟨fun a b c => charListLe_trans a.data b.data c.data⟩

theorem takeWhile_of_all {α : Type} {p : α → Bool} :
    ∀ l : List α, (∀ c ∈ l, p c = true) → l.takeWhile p = l
  | [], _ => rfl
  | a :: as, h => by
    have ha := h a (List.mem_cons_self _ _)
    simp [List.takeWhile, ha,
      takeWhile_of_all as (fun c hc => h c (List.mem_cons_of_mem _ hc))]

theorem sectionCategory_of_no_delim (s : String) (h : hasDelim s = false) :
    sectionCategory s = s := by
  have h2 : '.' ∉ s.data := by simpa [hasDelim] using h
  have h3 : s.data.takeWhile (fun c => c != '.') = s.data :=
    takeWhile_of_all _ (fun c hc => by
      rw [bne_iff_ne]
      intro he
      exact h2 (he ▸ hc))
  exact congrArg String.mk h3

theorem resetLookup_eq_guiSection (gui : GuiDict) (s : String) :
    resetLookup gui s = guiSection gui s := by
  cases h : hasDelim s with
  | true => simp [resetLookup, resetL0, guiSection, h]
  | false => simp [resetLookup, resetL0, guiSection, h, sectionCategory_of_no_delim s h]

theorem guiWF_step (c : Config) (acc : GuiDict) (sect : String) (sd : SectionDefaults)
    (h : GuiWF acc) : GuiWF (getConfigStep c acc sect sd) := by
  obtain ⟨hnd, hmem⟩ := h
  have holdWF : (List.map Prod.fst ((alookup acc (sectionCategory sect)).getD [])).Nodup ∧
      ∀ q ∈ (alookup acc (sectionCategory sect)).getD [],
        sectionCategory q.1 = sectionCategory sect := by
    cases hin : alookup acc (sectionCategory sect) with
    | none => simp
    | some inner0 =>
      have h5 := hmem _ (alookup_mem hin)
      simp only [Option.getD_some]
      exact ⟨h5.1, h5.2⟩
  refine ⟨setAssoc_nodup _ _ hnd, ?_⟩
  intro p hp
  rcases mem_setAssoc hp with hp2 | hp2
  · subst hp2
    refine ⟨setAssoc_nodup _ _ holdWF.1, ?_⟩
    intro q hq
    rcases mem_setAssoc hq with hq2 | hq2
    · subst hq2
      rfl
    · exact holdWF.2 q hq2
  · exact hmem p hp2

theorem guiSection_step_self (c : Config) (acc : GuiDict) (sect : String)
    (sd : SectionDefaults) :
    guiSection (getConfigStep c acc sect sd) sect = some (fillOptions c sect sd) := by
  simp [guiSection, getConfigStep, alookup_setAssoc_self]

theorem guiSection_step_ne (c : Config) (acc : GuiDict) (sect s : String)
    (sd : SectionDefaults) (h : s ≠ sect) :
    guiSection (getConfigStep c acc sect sd) s = guiSection acc s := by
  by_cases hcat : sectionCategory s = sectionCategory sect
  · simp only [guiSection, getConfigStep, hcat, alookup_setAssoc_self, Option.some_bind]
    rw [alookup_setAssoc_ne _ _ _ _ h]
    cases hin : alookup acc (sectionCategory sect) with
    | none =>
      simp [alookup]
    | some inner0 =>
      simp
  · simp only [guiSection, getConfigStep]
    rw [alookup_setAssoc_ne _ _ _ _ hcat]

theorem getConfigAux_isSome (c : Config) :
    ∀ (sects : List String) (acc : GuiDict) (pinfo : List (String × String)),
      (∀ s ∈ sects, (alookup c.defaults s).isSome) →
        ∃ gp, getConfigAux c acc pinfo sects = some gp
  | [], acc, pinfo, _ => ⟨(acc, pinfo), rfl⟩
  | sect :: rest, acc, pinfo, h => by
    cases hlk : alookup c.defaults sect with
    | none =>
      have h2 := h sect (List.mem_cons_self _ _)
      rw [hlk] at h2
      exact absurd h2 (by simp)
    | some sd =>
      obtain ⟨gp, hgp⟩ := getConfigAux_isSome c rest (getConfigStep c acc sect sd)
        (setAssoc pinfo sect sd.helptext) (fun s hs => h s (List.mem_cons_of_mem _ hs))
      refine ⟨gp, ?_⟩
      simp only [getConfigAux]
      rw [hlk]
      exact hgp

theorem getConfigAux_wf (c : Config) :
    ∀ (sects : List String) (acc : GuiDict) (pinfo pi2 : List (String × String))
      (gui : GuiDict), GuiWF acc → getConfigAux c acc pinfo sects = some (gui, pi2) →
        GuiWF gui
  | [], acc, pinfo, pi2, gui, hwf, heq => by
    simp only [getConfigAux, Option.some.injEq, Prod.mk.injEq] at heq
    obtain ⟨rfl, rfl⟩ := heq
    exact hwf
  | sect :: rest, acc, pinfo, pi2, gui, hwf, heq => by
    simp only [getConfigAux] at heq
    cases hlk : alookup c.defaults sect with
    | none =>
      rw [hlk] at heq
      exact Option.noConfusion heq
    | some sd =>
      rw [hlk] at heq
      exact getConfigAux_wf c rest _ _ _ _ (guiWF_step c acc sect sd hwf) heq

theorem getConfigAux_persist (c : Config) :
    ∀ (sects : List String) (acc : GuiDict) (pinfo pi2 : List (String × String))
      (gui : GuiDict) (s : String), s ∉ sects →
        getConfigAux c acc pinfo sects = some (gui, pi2) →
          guiSection gui s = guiSection acc s
  | [], acc, pinfo, pi2, gui, s, _, heq => by
    simp only [getConfigAux, Option.some.injEq, Prod.mk.injEq] at heq
    obtain ⟨rfl, rfl⟩ := heq
    rfl
  | sect :: rest, acc, pinfo, pi2, gui, s, hnot, heq => by
    simp only [getConfigAux] at heq
    cases hlk : alookup c.defaults sect with
    | none =>
      rw [hlk] at heq
      exact Option.noConfusion heq
    | some sd =>
      rw [hlk] at heq
      have hrest : s ∉ rest := fun h2 => hnot (List.mem_cons_of_mem _ h2)
      have hne : s ≠ sect := fun h2 => hnot (h2 ▸ List.mem_cons_self _ _)
      rw [getConfigAux_persist c rest _ _ _ _ s hrest heq]
      exact guiSection_step_ne c acc sect s sd hne

theorem getConfigAux_content (c : Config) :
    ∀ (sects : List String) (acc : GuiDict) (pinfo pi2 : List (String × String))
      (gui : GuiDict) (s : String), s ∈ sects →
        getConfigAux c acc pinfo sects = some (gui, pi2) →
          ∃ sd, alookup c.defaults s = some sd ∧
            guiSection gui s = some (fillOptions c s sd)
  | [], _, _, _, _, s, hmem, _ => absurd hmem (List.not_mem_nil s)
  | sect :: rest, acc, pinfo, pi2, gui, s, hmem, heq => by
    simp only [getConfigAux] at heq
    cases hlk : alookup c.defaults sect with
    | none =>
      rw [hlk] at heq
      exact Option.noConfusion heq
    | some sd =>
      rw [hlk] at heq
      by_cases hs : s ∈ rest
      · exact getConfigAux_content c rest _ _ _ _ s hs heq
      · have hse : s = sect := by
          rcases List.mem_cons.mp hmem with h2 | h2
          · exact h2
          · exact absurd h2 hs
        subst hse
        refine ⟨sd, hlk, ?_⟩
        rw [getConfigAux_persist c rest _ _ _ _ s hs heq]
        exact guiSection_step_self c acc s sd

theorem get_config_wf {c : Config} {gui : GuiDict} {pi2 : List (String × String)}
    (h : get_config c = some (gui, pi2)) : GuiWF gui :=
  getConfigAux_wf c c.sections [] [] pi2 gui ⟨List.nodup_nil, by simp⟩ h

theorem get_config_content {c : Config} {gui : GuiDict} {pi2 : List (String × String)}
    {s : String} (h : get_config c = some (gui, pi2)) (hs : s ∈ c.sections) :
    ∃ sd, alookup c.defaults s = some sd ∧ guiSection gui s = some (fillOptions c s sd) :=
  getConfigAux_content c c.sections [] [] pi2 gui s hs h

theorem alookup_of_mem_nodup {α : Type} [DecidableEq α] {β : Type} :
    ∀ {l : List (α × β)} {k : α} {v : β}, (k, v) ∈ l → (l.map Prod.fst).Nodup →
      alookup l k = some v
  | [], k, v, hmem, _ => absurd hmem (List.not_mem_nil _)
  | (a, b) :: rest, k, v, hmem, hnd => by
    have hnd2 : (a :: rest.map Prod.fst).Nodup := by simpa using hnd
    obtain ⟨hhead, htail⟩ := List.nodup_cons.mp hnd2
    rcases List.mem_cons.mp hmem with h2 | h2
    · obtain ⟨rfl, rfl⟩ := Prod.mk.injEq .. ▸ h2.symm
      simp [alookup]
    · have hka : ¬ a = k := by
        intro h3
        subst h3
        exact hhead (by simpa using List.mem_map_of_mem Prod.fst h2)
      simp only [alookup, if_neg hka]
      exact alookup_of_mem_nodup h2 htail

theorem fillOptions_alookup (c : Config) (s ht : String) :
    ∀ (l : List (String × OptDefault)) (k : String) (od : OptDefault),
      (l.map Prod.fst).Nodup → (k, od) ∈ l → k ≠ "helptext" →
        alookup (fillOptions c s ⟨ht, l⟩) k =
          some ⟨od.default, od.helptext, (alookup (storedFor c s) k).getD od.default,
            (alookup (storedFor c s) k).getD od.default⟩
  | [], k, od, _, hmem, _ => absurd hmem (List.not_mem_nil _)
  | (a, b) :: rest, k, od, hnd, hmem, hne => by
    have hnd2 : (a :: rest.map Prod.fst).Nodup := by simpa using hnd
    obtain ⟨hhead, htail⟩ := List.nodup_cons.mp hnd2
    have hrest : fillOptions c s ⟨ht, (a, b) :: rest⟩ =
        (if (a != "helptext") = true
          then (a, (⟨b.default, b.helptext, (alookup (storedFor c s) a).getD b.default,
            (alookup (storedFor c s) a).getD b.default⟩ : OptGui)) :: fillOptions c s ⟨ht, rest⟩
          else fillOptions c s ⟨ht, rest⟩) := by
      simp only [fillOptions, List.filter_cons]
      by_cases hfa : (a != "helptext") = true
      · simp [hfa]
      · simp [hfa]
    by_cases hak : a = k
    · subst hak
      have hbod : b = od := by
        rcases List.mem_cons.mp hmem with h2 | h2
        · exact ((Prod.mk.injEq .. ▸ h2 : _ ∧ _).2).symm
        · exact absurd (List.mem_map_of_mem Prod.fst h2) hhead
      subst hbod
      have hfa : (a != "helptext") = true := by
        rw [bne_iff_ne]
        exact hne
      rw [hrest]
      simp [hfa, alookup]
    · have h2 : (k, od) ∈ rest := by
        rcases List.mem_cons.mp hmem with h3 | h3
        · exact absurd ((Prod.mk.injEq .. ▸ h3 : _ ∧ _).1).symm hak
        · exact h3
      have ih := fillOptions_alookup c s ht rest k od htail h2 hne
      rw [hrest]
      by_cases hfa : (a != "helptext") = true
      · simp only [hfa, if_true, alookup, if_neg hak]
        exact ih
      · simp only [hfa, if_false]
        exact ih

/-- C3. Load default fallback: in the GUI snapshot built by get_config, the
displayed value of every non-helptext option of every loaded section is the
stored value of that key when the stored section holds one, and the recorded
default of the option otherwise. -/
theorem load_value_fallback (c : Config) (gui : GuiDict) (pi2 : List (String × String))
    (s k : String) (sd : SectionDefaults) (od : OptDefault)
    (hgc : get_config c = some (gui, pi2)) (hs : s ∈ c.sections)
    (hsd : alookup c.defaults s = some sd) (hnd : (sd.opts.map Prod.fst).Nodup)
    (hk : (k, od) ∈ sd.opts) (hne : k ≠ "helptext") :
    (guiOption gui s k).map OptGui.value =
      some ((alookup (storedFor c s) k).getD od.default) := by
  obtain ⟨sd2, hsd2, hopts⟩ := get_config_content hgc hs
  rw [hsd] at hsd2
  have hsdeq : sd = sd2 := by injection hsd2
  subst hsdeq
  have hfill2 : alookup (fillOptions c s sd) k =
      some ⟨od.default, od.helptext, (alookup (storedFor c s) k).getD od.default,
        (alookup (storedFor c s) k).getD od.default⟩ :=
    fillOptions_alookup c s sd.helptext sd.opts k od hnd hk hne
  simp only [guiOption, hopts, Option.some_bind]
  rw [hfill2]
  rfl

theorem filter_eq_singleton {β : Type} :
    ∀ (l : List (String × β)) (pred : String × β → Bool) (p : String × β),
      (l.map Prod.fst).Nodup → p ∈ l → pred p = true →
        (∀ q ∈ l, pred q = true → q.1 = p.1) → l.filter pred = [p]
  | [], _, p, _, hp, _, _ => absurd hp (List.not_mem_nil _)
  | a :: rest, pred, p, hnd, hp, hpred, huniq => by
    obtain ⟨hhead, htail⟩ := List.nodup_cons.mp (by simpa using hnd : (a.1 :: rest.map Prod.fst).Nodup)
    by_cases hpa : pred a = true
    · have hap : p = a := by
        rcases List.mem_cons.mp hp with h2 | h2
        · exact h2
        · exfalso
          have h3 : a.1 = p.1 := huniq a (List.mem_cons_self _ _) hpa
          exact hhead (h3 ▸ List.mem_map_of_mem Prod.fst h2)
      subst hap
      have hrest : rest.filter pred = [] := by
        rw [List.filter_eq_nil_iff]
        intro q hq hq2
        exact hhead ((huniq q (List.mem_cons_of_mem _ hq) hq2) ▸ List.mem_map_of_mem Prod.fst hq)
      simp [List.filter_cons, hpa, hrest]
    · have hpr : p ∈ rest := by
        rcases List.mem_cons.mp hp with h2 | h2
        · exact absurd (h2 ▸ hpred) hpa
        · exact h2
      have ih := filter_eq_singleton rest pred p htail hpr hpred
        (fun q hq hq2 => huniq q (List.mem_cons_of_mem _ hq) hq2)
      simp [List.filter_cons, hpa, ih]

/-- C6. Category partition: the grouping built by get_config assigns every
loaded section name to exactly one category, the prefix of the section name
before the first delimiter: the list of categories containing the section is
exactly that singleton. -/
theorem category_partition (c : Config) (gui : GuiDict) (pi2 : List (String × String))
    (s : String) (hgc : get_config c = some (gui, pi2)) (hs : s ∈ c.sections) :
    categoriesContaining gui s = [sectionCategory s] := by
  obtain ⟨hnd, hwf⟩ := get_config_wf hgc
  obtain ⟨sd, _, hopts⟩ := get_config_content hgc hs
  simp only [guiSection] at hopts
  cases hcat : alookup gui (sectionCategory s) with
  | none =>
    rw [hcat] at hopts
    exact Option.noConfusion hopts
  | some inner =>
    rw [hcat] at hopts
    simp only [Option.some_bind] at hopts
    have hmem : (sectionCategory s, inner) ∈ gui := alookup_mem hcat
    have hsin : (s, fillOptions c s sd) ∈ inner := alookup_mem hopts
    have hpred : (fun p : String × List (String × OptsGui) =>
        p.2.any (fun q => q.1 == s)) (sectionCategory s, inner) = true := by
      simp only [List.any_eq_true]
      exact ⟨(s, fillOptions c s sd), hsin, by simp⟩
    have huniq : ∀ q ∈ gui, (fun p : String × List (String × OptsGui) =>
        p.2.any (fun q2 => q2.1 == s)) q = true → q.1 = sectionCategory s := by
      intro q hq hq2
      simp only [List.any_eq_true] at hq2
      obtain ⟨sq, hsq, hsq2⟩ := hq2
      have : sq.1 = s := by simpa using hsq2
      rw [← (hwf q hq).2 sq hsq, this]
    have hfilter := filter_eq_singleton gui _ (sectionCategory s, inner) hnd hmem hpred huniq
    simp only [categoriesContaining, hfilter, List.map_cons, List.map_nil]

/-- C10. Safety of the two-step lookup of reset: every defaults section that
was also loaded by get_config is found by the lookup through its category key,
and every non-helptext option key of that section is present in the options it
returns, so the dict indexing in reset cannot fail for such sections. The live
edit entry itself is total in this model (see OptGui, modelled from the spec). -/
theorem reset_lookup_safe (c : Config) (gui : GuiDict) (pi2 : List (String × String))
    (s : String) (sd : SectionDefaults)
    (hgc : get_config c = some (gui, pi2)) (hs : s ∈ c.sections)
    (hsd : alookup c.defaults s = some sd) (hnd : (sd.opts.map Prod.fst).Nodup) :
    ∃ opts, resetLookup gui s = some opts ∧
      ∀ k od, (k, od) ∈ sd.opts → k ≠ "helptext" → (alookup opts k).isSome := by
  obtain ⟨sd2, hsd2, hopts⟩ := get_config_content hgc hs
  rw [hsd] at hsd2
  have hsdeq : sd = sd2 := by injection hsd2
  subst hsdeq
  refine ⟨fillOptions c s sd, by rw [resetLookup_eq_guiSection]; exact hopts, ?_⟩
  intro k od hk hne
  have hfill2 : alookup (fillOptions c s sd) k =
      some ⟨od.default, od.helptext, (alookup (storedFor c s) k).getD od.default,
        (alookup (storedFor c s) k).getD od.default⟩ :=
    fillOptions_alookup c s sd.helptext sd.opts k od hnd hk hne
  rw [hfill2]
  rfl

theorem alookup_insertAll :
    ∀ (inner : List (String × OptsGui)) (acc : List (String × OptsGui)) (s : String),
      (inner.map Prod.fst).Nodup →
        alookup (insertAll acc inner) s =
          match alookup inner s with
          | some o => some o
          | none => alookup acc s
  | [], acc, s, _ => by simp [insertAll, alookup]
  | q :: rest, acc, s, hnd => by
    obtain ⟨hhead, htail⟩ := List.nodup_cons.mp (by simpa using hnd : (q.1 :: rest.map Prod.fst).Nodup)
    have ih := alookup_insertAll rest (setAssoc acc q.1 q.2) s htail
    simp only [insertAll]
    rw [ih]
    by_cases hq : q.1 = s
    · have hnone : alookup rest s = none := by
        rw [alookup_eq_none]
        rw [← hq]
        exact hhead
      rw [hnone]
      subst hq
      simp only [alookup, if_pos rfl]
      exact alookup_setAssoc_self acc q.1 q.2
    · simp only [alookup, if_neg hq]
      cases alookup rest s with
      | some o => rfl
      | none => exact alookup_setAssoc_ne acc q.1 s q.2 (fun h2 => hq h2.symm)

theorem alookup_flattenAux :
    ∀ (gui : GuiDict) (acc : List (String × OptsGui)) (s : String),
      GuiWF gui →
        alookup (flattenAux acc gui) s =
          match guiSection gui s with
          | some o => some o
          | none => alookup acc s
  | [], acc, s, _ => by simp [flattenAux, guiSection, alookup]
  | p :: rest, acc, s, hwf => by
    obtain ⟨hnd, hmem⟩ := hwf
    obtain ⟨hhead, htail⟩ := List.nodup_cons.mp (by simpa using hnd : (p.1 :: rest.map Prod.fst).Nodup)
    have hwfrest : GuiWF rest := ⟨htail, fun q hq => hmem q (List.mem_cons_of_mem _ hq)⟩
    have hinnd : (p.2.map Prod.fst).Nodup := (hmem p (List.mem_cons_self _ _)).1
    have ih := alookup_flattenAux rest (insertAll acc p.2) s hwfrest
    simp only [flattenAux]
    rw [ih, alookup_insertAll p.2 acc s hinnd]
    by_cases hcat : p.1 = sectionCategory s
    · have hnone : alookup rest (sectionCategory s) = none := by
        rw [alookup_eq_none, ← hcat]
        exact hhead
      have hrestnone : guiSection rest s = none := by
        simp only [guiSection, hnone, Option.none_bind]
      have hguiCons : guiSection (p :: rest) s = alookup p.2 s := by
        simp only [guiSection, alookup, if_pos hcat, Option.some_bind]
      rw [hrestnone, hguiCons]
    · have hpnone : alookup p.2 s = none := by
        cases h2 : alookup p.2 s with
        | none => rfl
        | some o =>
          exact absurd ((hmem p (List.mem_cons_self _ _)).2 _ (alookup_mem h2)).symm hcat
      have hguiCons : guiSection (p :: rest) s = guiSection rest s := by
        simp only [guiSection, alookup, if_neg hcat]
      rw [hpnone, hguiCons]

/-- C9. The flat section to options mapping that save_config rebuilds with its
dict comprehension agrees, as a mapping, with the section to options content of
the grouping built by get_config: every section name looks up to the same
options in both, so no section is lost and none is overwritten. -/
theorem flatten_eq_load (c : Config) (gui : GuiDict) (pi2 : List (String × String))
    (hgc : get_config c = some (gui, pi2)) :
    ∀ s, alookup (flattenGui gui) s = guiSection gui s := by
  intro s
  have hwf := get_config_wf hgc
  rw [flattenGui, alookup_flattenAux gui [] s hwf]
  cases guiSection gui s with
  | some o => rfl
  | none => simp [alookup]

/-- C5. Category tab ordering: in the category sequence of build, the category
global is first whenever it is a key of the snapshot, and the remaining
categories are in ascending lexicographic order. -/
theorem build_global_first (gui : GuiDict) :
    ("global" ∈ gui.map Prod.fst → (buildCategories gui).head? = some "global") ∧
    List.Sorted (fun a b => strLe a b = true)
      (if "global" ∈ gui.map Prod.fst then (buildCategories gui).tail
       else buildCategories gui) := by
  have hsorted : List.Sorted (fun a b => strLe a b = true)
      (List.insertionSort (fun a b => strLe a b = true) (gui.map Prod.fst)) :=
    List.sorted_insertionSort _ _
  by_cases hg : "global" ∈ gui.map Prod.fst
  · have hg2 : "global" ∈ List.insertionSort (fun a b => strLe a b = true) (gui.map Prod.fst) :=
      (List.mem_insertionSort _).mpr hg
    have hbc : buildCategories gui =
        "global" :: (List.insertionSort (fun a b => strLe a b = true)
          (gui.map Prod.fst)).erase "global" := by
      simp only [buildCategories, if_pos hg2]
    refine ⟨fun _ => by rw [hbc]; rfl, ?_⟩
    rw [if_pos hg, hbc]
    simp only [List.tail_cons]
    exact List.Pairwise.sublist (List.erase_sublist _ _) hsorted
  · have hg2 : "global" ∉ List.insertionSort (fun a b => strLe a b = true) (gui.map Prod.fst) :=
      fun h2 => hg ((List.mem_insertionSort _).mp h2)
    have hbc : buildCategories gui =
        List.insertionSort (fun a b => strLe a b = true) (gui.map Prod.fst) := by
      simp only [buildCategories, if_neg hg2]
    refine ⟨fun h2 => absurd h2 hg, ?_⟩
    rw [if_neg hg, hbc]
    exact hsorted

/-- C4 (amended). Render nesting condition as implemented: a category page is a
nested notebook exactly when some plugin key of the category differs from the
category name; with more than one plugin this always holds, but a category
holding a single plugin whose section name differs from the category is also
nested. -/
theorem build_page_nested_iff (gui : GuiDict) (cat : String)
    (inner : List (String × OptsGui)) (hin : alookup gui cat = some inner)
    (hnd : (inner.map Prod.fst).Nodup) :
    (1 < inner.length → ∃ tabs, build_page gui cat = some (Page.nested tabs)) ∧
    ((∃ tabs, build_page gui cat = some (Page.nested tabs)) ↔ ∃ q ∈ inner, q.1 ≠ cat) := by
  by_cases hany : (List.insertionSort (fun a b => strLe a b = true)
      (inner.map Prod.fst)).any (fun p => p != cat) = true
  · have hbp : build_page gui cat = some (Page.nested
        ((List.insertionSort (fun a b => strLe a b = true) (inner.map Prod.fst)).map
          (fun p => (p, (alookup ((alookup gui cat).getD []) p).getD [])))) := by
      simp only [build_page, hin, Option.getD_some]
      rw [if_pos hany]
    have hex : ∃ q ∈ inner, q.1 ≠ cat := by
      obtain ⟨p, hp, hp2⟩ := List.any_eq_true.mp hany
      obtain ⟨q, hq, hq2⟩ := List.mem_map.mp ((List.mem_insertionSort _).mp hp)
      exact ⟨q, hq, hq2 ▸ bne_iff_ne.mp hp2⟩
    exact ⟨fun _ => ⟨_, hbp⟩, ⟨fun _ => hex, fun _ => ⟨_, hbp⟩⟩⟩
  · have hall : ∀ p ∈ inner.map Prod.fst, p = cat := by
      intro p hp
      by_contra hne
      exact hany (List.any_eq_true.mpr
        ⟨p, (List.mem_insertionSort _).mpr hp, bne_iff_ne.mpr hne⟩)
    have hnone : ∀ tabs, build_page gui cat ≠ some (Page.nested tabs) := by
      intro tabs hcontra
      simp only [build_page, hin, Option.getD_some] at hcontra
      rw [if_neg hany] at hcontra
      rcases hP : List.insertionSort (fun a b => strLe a b = true) (inner.map Prod.fst) with
        _ | ⟨p0, Pr⟩
      · rw [hP] at hcontra
        exact Option.noConfusion hcontra
      · rw [hP] at hcontra
        have h3 := Option.some.injEq .. ▸ hcontra
        simp at h3
    constructor
    · intro hlen
      exfalso
      have hlen2 : 1 < (inner.map Prod.fst).length := by simpa using hlen
      rcases hkeys : inner.map Prod.fst with _ | ⟨a, _ | ⟨b, t⟩⟩
      · rw [hkeys] at hlen2
        simp at hlen2
      · rw [hkeys] at hlen2
        simp at hlen2
      · have ha : a = cat := hall a (by rw [hkeys]; exact List.mem_cons_self _ _)
        have hb : b = cat := hall b (by
          rw [hkeys]
          exact List.mem_cons_of_mem _ (List.mem_cons_self _ _))
        rw [hkeys] at hnd
        obtain ⟨hhead, _⟩ := List.nodup_cons.mp hnd
        exact hhead (by rw [ha, ← hb]; exact List.mem_cons_self _ _)
    · constructor
      · intro ⟨tabs, htabs⟩
        exact absurd htabs (hnone tabs)
      · intro ⟨q, hq, hqne⟩
        exact absurd (hall q.1 (List.mem_map_of_mem Prod.fst hq)) hqne

/-- C4 counterexample: in the snapshot loaded from nestConfig the category
extract holds exactly one plugin, yet build_page builds a nested notebook for
it, against the claim that a single plugin is rendered directly on the
category tab. -/
theorem build_page_single_nested_cex :
    ((alookup nestGui "extract").getD []).length = 1 ∧
    (build_page nestGui "extract").map Page.isNested = some true := by
  constructor
  · rfl
  · rfl

theorem setSelected_eq {gui : GuiDict} {s k v : String} {gui2 : GuiDict}
    (h : setSelected gui s k v = some gui2) :
    ∃ inner opts og, alookup gui (resetL0 s) = some inner ∧ alookup inner s = some opts ∧
      alookup opts k = some og ∧
      gui2 = setAssoc gui (resetL0 s)
        (setAssoc inner s (setAssoc opts k { og with selected := v })) := by
  unfold setSelected at h
  split at h
  · exact Option.noConfusion h
  · rename_i inner h1
    split at h
    · exact Option.noConfusion h
    · rename_i opts h2
      split at h
      · exact Option.noConfusion h
      · rename_i og h3
        simp only [Option.some.injEq] at h
        exact ⟨inner, opts, og, h1, h2, h3, h.symm⟩

theorem setSelected_lookup_self {gui : GuiDict} {s k v : String} {gui2 : GuiDict}
    (h : setSelected gui s k v = some gui2) :
    ∃ og, (resetLookup gui2 s).bind (fun o => alookup o k) = some og ∧ og.selected = v := by
  obtain ⟨inner, opts, og, _, _, _, rfl⟩ := setSelected_eq h
  refine ⟨{ og with selected := v }, ?_, rfl⟩
  simp only [resetLookup, alookup_setAssoc_self, Option.some_bind]

theorem setSelected_preserve_section {gui : GuiDict} {s' k' v : String} {gui2 : GuiDict}
    (s : String) (hne : s ≠ s') (h : setSelected gui s' k' v = some gui2) :
    resetLookup gui2 s = resetLookup gui s := by
  obtain ⟨inner, opts, og, h1, _, _, rfl⟩ := setSelected_eq h
  simp only [resetLookup]
  by_cases hl : resetL0 s = resetL0 s'
  · rw [hl, alookup_setAssoc_self, h1]
    simp only [Option.some_bind]
    exact alookup_setAssoc_ne inner s' s _ hne
  · rw [alookup_setAssoc_ne _ _ _ _ hl]

theorem setSelected_preserve_item {gui : GuiDict} {s k' v : String} {gui2 : GuiDict}
    (k : String) (hne : k ≠ k') (h : setSelected gui s k' v = some gui2) :
    (resetLookup gui2 s).bind (fun o => alookup o k) =
      (resetLookup gui s).bind (fun o => alookup o k) := by
  obtain ⟨inner, opts, og, h1, h2, _, rfl⟩ := setSelected_eq h
  simp only [resetLookup, h1, Option.some_bind, h2]
  rw [alookup_setAssoc_self, Option.some_bind, alookup_setAssoc_self, Option.some_bind,
    alookup_setAssoc_ne _ _ _ _ hne]

theorem resetItems_preserve_section (s' : String) :
    ∀ (items : List (String × OptDefault)) (gui gui2 : GuiDict) (s : String), s ≠ s' →
      resetItems s' gui items = some gui2 → resetLookup gui2 s = resetLookup gui s
  | [], gui, gui2, s, _, heq => by
    simp only [resetItems, Option.some.injEq] at heq
    rw [← heq]
  | (k0, od0) :: rest, gui, gui2, s, hne, heq => by
    simp only [resetItems] at heq
    by_cases hk0 : k0 = "helptext"
    · rw [if_pos hk0] at heq
      exact resetItems_preserve_section s' rest gui gui2 s hne heq
    · rw [if_neg hk0] at heq
      cases hset : setSelected gui s' k0 od0.default with
      | none =>
        rw [hset] at heq
        exact Option.noConfusion heq
      | some gui1 =>
        rw [hset] at heq
        rw [resetItems_preserve_section s' rest gui1 gui2 s hne heq]
        exact setSelected_preserve_section s hne hset

theorem resetItems_preserve_item (s k : String) :
    ∀ (items : List (String × OptDefault)) (gui gui2 : GuiDict), k ∉ items.map Prod.fst →
      resetItems s gui items = some gui2 →
        (resetLookup gui2 s).bind (fun o => alookup o k) =
          (resetLookup gui s).bind (fun o => alookup o k)
  | [], gui, gui2, _, heq => by
    simp only [resetItems, Option.some.injEq] at heq
    rw [← heq]
  | (k0, od0) :: rest, gui, gui2, hnotin, heq => by
    have hnk0 : k ≠ k0 := by
      intro h2
      exact hnotin (by simp [h2])
    have hnrest : k ∉ rest.map Prod.fst := by
      intro h2
      exact hnotin (by simp [h2])
    simp only [resetItems] at heq
    by_cases hk0 : k0 = "helptext"
    · rw [if_pos hk0] at heq
      exact resetItems_preserve_item s k rest gui gui2 hnrest heq
    · rw [if_neg hk0] at heq
      cases hset : setSelected gui s k0 od0.default with
      | none =>
        rw [hset] at heq
        exact Option.noConfusion heq
      | some gui1 =>
        rw [hset] at heq
        rw [resetItems_preserve_item s k rest gui1 gui2 hnrest heq]
        exact setSelected_preserve_item k hnk0 hset

theorem resetItems_sets (s : String) :
    ∀ (items : List (String × OptDefault)) (gui gui2 : GuiDict),
      (items.map Prod.fst).Nodup → resetItems s gui items = some gui2 →
        ∀ (k : String) (od : OptDefault), (k, od) ∈ items → k ≠ "helptext" →
          ∃ og, (resetLookup gui2 s).bind (fun o => alookup o k) = some og ∧
            og.selected = od.default
  | [], _, _, _, _, k, od, hmem, _ => absurd hmem (List.not_mem_nil _)
  | (k0, od0) :: rest, gui, gui2, hnd, heq, k, od, hmem, hne => by
    have hnd2 : (k0 :: rest.map Prod.fst).Nodup := by simpa using hnd
    obtain ⟨hhead, htail⟩ := List.nodup_cons.mp hnd2
    simp only [resetItems] at heq
    by_cases hk0 : k0 = "helptext"
    · rw [if_pos hk0] at heq
      have hmem2 : (k, od) ∈ rest := by
        rcases List.mem_cons.mp hmem with h2 | h2
        · exact absurd (((Prod.mk.injEq .. ▸ h2 : _ ∧ _).1).trans hk0) hne
        · exact h2
      exact resetItems_sets s rest gui gui2 htail heq k od hmem2 hne
    · rw [if_neg hk0] at heq
      cases hset : setSelected gui s k0 od0.default with
      | none =>
        rw [hset] at heq
        exact Option.noConfusion heq
      | some gui1 =>
        rw [hset] at heq
        rcases List.mem_cons.mp hmem with h2 | h2
        · obtain ⟨rfl, rfl⟩ := Prod.mk.injEq .. ▸ h2
          have hpres := resetItems_preserve_item s k rest gui1 gui2 hhead heq
          obtain ⟨og, hog, hsel⟩ := setSelected_lookup_self hset
          exact ⟨og, by rw [hpres]; exact hog, hsel⟩
        · exact resetItems_sets s rest gui1 gui2 htail heq k od h2 hne

theorem resetSections_preserve (s : String) :
    ∀ (dfts : List (String × SectionDefaults)) (gui gui2 : GuiDict),
      s ∉ dfts.map Prod.fst → resetSections gui dfts = some gui2 →
        resetLookup gui2 s = resetLookup gui s
  | [], gui, gui2, _, heq => by
    simp only [resetSections, Option.some.injEq] at heq
    rw [← heq]
  | (s0, sd0) :: rest, gui, gui2, hnotin, heq => by
    have hns0 : s ≠ s0 := by
      intro h2
      exact hnotin (by simp [h2])
    have hnrest : s ∉ rest.map Prod.fst := by
      intro h2
      exact hnotin (by simp [h2])
    simp only [resetSections] at heq
    cases hitems : resetItems s0 gui sd0.opts with
    | none =>
      rw [hitems] at heq
      exact Option.noConfusion heq
    | some gui1 =>
      rw [hitems] at heq
      rw [resetSections_preserve s rest gui1 gui2 hnrest heq]
      exact resetItems_preserve_section s0 sd0.opts gui gui1 s hns0 hitems

theorem resetSections_sets :
    ∀ (dfts : List (String × SectionDefaults)) (gui gui2 : GuiDict),
      (dfts.map Prod.fst).Nodup → resetSections gui dfts = some gui2 →
        ∀ (s : String) (sd : SectionDefaults), (s, sd) ∈ dfts →
          (sd.opts.map Prod.fst).Nodup →
            ∀ (k : String) (od : OptDefault), (k, od) ∈ sd.opts → k ≠ "helptext" →
              ∃ og, (resetLookup gui2 s).bind (fun o => alookup o k) = some og ∧
                og.selected = od.default
  | [], _, _, _, _, s, sd, hmem, _, _, _, _, _ => absurd hmem (List.not_mem_nil _)
  | (s0, sd0) :: rest, gui, gui2, hnd, heq, s, sd, hmem, hoptsnd, k, od, hk, hne => by
    have hnd2 : (s0 :: rest.map Prod.fst).Nodup := by simpa using hnd
    obtain ⟨hhead, htail⟩ := List.nodup_cons.mp hnd2
    simp only [resetSections] at heq
    cases hitems : resetItems s0 gui sd0.opts with
    | none =>
      rw [hitems] at heq
      exact Option.noConfusion heq
    | some gui1 =>
      rw [hitems] at heq
      rcases List.mem_cons.mp hmem with h2 | h2
      · obtain ⟨rfl, rfl⟩ := Prod.mk.injEq .. ▸ h2
        have hpres := resetSections_preserve s rest gui1 gui2 hhead heq
        obtain ⟨og, hog, hsel⟩ :=
          resetItems_sets s sd.opts gui gui1 hoptsnd hitems k od hk hne
        exact ⟨og, by rw [hpres]; exact hog, hsel⟩
      · exact resetSections_sets rest gui1 gui2 htail heq s sd h2 hoptsnd k od hk hne

/-- C2. Reset postcondition: after a completed reset, the live edit value of
every non-helptext option of every defaults section, read back through the
two-step lookup of reset, equals the recorded default of that option. -/
theorem reset_sets_defaults (c : Config) (gui gui2 : GuiDict)
    (hnd : (c.defaults.map Prod.fst).Nodup) (hr : reset c gui = some gui2)
    (s : String) (sd : SectionDefaults) (hmem : (s, sd) ∈ c.defaults)
    (hoptsnd : (sd.opts.map Prod.fst).Nodup) (k : String) (od : OptDefault)
    (hk : (k, od) ∈ sd.opts) (hne : k ≠ "helptext") :
    ∃ og, (resetLookup gui2 s).bind (fun o => alookup o k) = some og ∧
      og.selected = od.default :=
  resetSections_sets c.defaults gui gui2 hnd hr s sd hmem hoptsnd k od hk hne

theorem flatten_lookup (gui : GuiDict) (hwf : GuiWF gui) (s : String) :
    alookup (flattenGui gui) s = guiSection gui s := by
  rw [flattenGui, alookup_flattenAux gui [] s hwf]
  cases guiSection gui s with
  | some o => rfl
  | none => simp [alookup]

theorem alookup_applyEdits (e : String → String → String) :
    ∀ (gui : GuiDict) (cat : String),
      alookup (applyEdits e gui) cat =
        (alookup gui cat).map (fun inner => inner.map (fun sp =>
          (sp.1, sp.2.map (fun op => (op.1, { op.2 with selected := e sp.1 op.1 })))))
  | [], _ => rfl
  | p :: rest, cat => by
    simp only [applyEdits, List.map_cons, alookup]
    by_cases h1 : p.1 = cat
    · simp [h1]
    · simp only [if_neg h1]
      simpa only [applyEdits] using alookup_applyEdits e rest cat

theorem guiSection_applyEdits (e : String → String → String) (gui : GuiDict) (s : String) :
    guiSection (applyEdits e gui) s =
      (guiSection gui s).map (fun opts => opts.map (fun op =>
        (op.1, { op.2 with selected := e s op.1 }))) := by
  simp only [guiSection]
  rw [alookup_applyEdits e gui (sectionCategory s)]
  cases alookup gui (sectionCategory s) with
  | none => rfl
  | some inner =>
    simp only [Option.map_some, Option.some_bind]
    exact alookup_map_value inner
      (fun s1 opts => opts.map (fun op => (op.1, { op.2 with selected := e s1 op.1 }))) s

theorem applyEdits_wf (e : String → String → String) (gui : GuiDict) (h : GuiWF gui) :
    GuiWF (applyEdits e gui) := by
  obtain ⟨hnd, hmem⟩ := h
  constructor
  · have hkeys : (applyEdits e gui).map Prod.fst = gui.map Prod.fst := by
      simp [applyEdits, List.map_map, Function.comp]
    rw [hkeys]
    exact hnd
  · intro p hp
    obtain ⟨q, hq, rfl⟩ := List.mem_map.mp hp
    constructor
    · have hkeys2 : (q.2.map (fun sp =>
          (sp.1, sp.2.map (fun op => (op.1, { op.2 with selected := e sp.1 op.1 }))))).map
            Prod.fst = q.2.map Prod.fst := by
        simp [List.map_map, Function.comp]
      simp only [hkeys2]
      exact (hmem q hq).1
    · intro q2 hq2
      obtain ⟨sp, hsp, rfl⟩ := List.mem_map.mp hq2
      exact (hmem q hq).2 sp hsp

theorem saveItems_preserve (options : List (String × OptsGui)) (s k : String) :
    ∀ (items : List (String × OptDefault)) (es es2 : List (String × String)),
      k ∉ items.map Prod.fst → saveItems options s es items = some es2 →
        alookup es2 k = alookup es k
  | [], es, es2, _, heq => by
    simp only [saveItems, Option.some.injEq] at heq
    rw [← heq]
  | (k0, od0) :: rest, es, es2, hnotin, heq => by
    have hnk0 : k ≠ k0 := by
      intro h2
      exact hnotin (by simp [h2])
    have hnrest : k ∉ rest.map Prod.fst := by
      intro h2
      exact hnotin (by simp [h2])
    simp only [saveItems] at heq
    by_cases hk0 : k0 = "helptext"
    · rw [if_pos hk0] at heq
      exact saveItems_preserve options s k rest es es2 hnrest heq
    · rw [if_neg hk0] at heq
      cases hlk : (alookup options s).bind (fun so => alookup so k0) with
      | none =>
        rw [hlk] at heq
        exact Option.noConfusion heq
      | some og =>
        rw [hlk] at heq
        rw [saveItems_preserve options s k rest _ es2 hnrest heq]
        exact alookup_setAssoc_ne es k0 k og.selected hnk0

theorem saveItems_spec (options : List (String × OptsGui)) (s : String) :
    ∀ (items : List (String × OptDefault)) (es : List (String × String)),
      (items.map Prod.fst).Nodup →
      (∀ (k : String) (od : OptDefault), (k, od) ∈ items → k ≠ "helptext" →
        ((alookup options s).bind (fun so => alookup so k)).isSome) →
      ∃ es2, saveItems options s es items = some es2 ∧
        ∀ (k : String) (od : OptDefault), (k, od) ∈ items → k ≠ "helptext" →
          ∃ og, (alookup options s).bind (fun so => alookup so k) = some og ∧
            alookup es2 k = some og.selected
  | [], es, _, _ => ⟨es, rfl, fun k od hmem _ => absurd hmem (List.not_mem_nil _)⟩
  | (k0, od0) :: rest, es, hnd, hsome => by
    have hnd2 : (k0 :: rest.map Prod.fst).Nodup := by simpa using hnd
    obtain ⟨hhead, htail⟩ := List.nodup_cons.mp hnd2
    by_cases hk0 : k0 = "helptext"
    · obtain ⟨es2, heq, hspec⟩ := saveItems_spec options s rest es htail
        (fun k od hm hn => hsome k od (List.mem_cons_of_mem _ hm) hn)
      refine ⟨es2, ?_, ?_⟩
      · simp only [saveItems]
        rw [if_pos hk0]
        exact heq
      · intro k od hmem hne
        rcases List.mem_cons.mp hmem with h2 | h2
        · exact absurd (((Prod.mk.injEq .. ▸ h2 : _ ∧ _).1).trans hk0) hne
        · exact hspec k od h2 hne
    · have hsome0 := hsome k0 od0 (List.mem_cons_self _ _) hk0
      cases hlk : (alookup options s).bind (fun so => alookup so k0) with
      | none =>
        rw [hlk] at hsome0
        exact absurd hsome0 (by simp)
      | some og0 =>
        obtain ⟨es2, heq, hspec⟩ := saveItems_spec options s rest (setAssoc es k0 og0.selected)
          htail (fun k od hm hn => hsome k od (List.mem_cons_of_mem _ hm) hn)
        refine ⟨es2, ?_, ?_⟩
        · simp only [saveItems]
          rw [if_neg hk0, hlk]
          exact heq
        · intro k od hmem hne
          rcases List.mem_cons.mp hmem with h2 | h2
          · obtain ⟨rfl, rfl⟩ := Prod.mk.injEq .. ▸ h2
            refine ⟨og0, hlk, ?_⟩
            rw [saveItems_preserve options s k rest _ es2 hhead heq]
            exact alookup_setAssoc_self es k og0.selected
          · exact hspec k od h2 hne

theorem saveSections_preserve (options : List (String × OptsGui)) (s : String) :
    ∀ (dfts : List (String × SectionDefaults)) (acc st2 : List (String × List (String × String))),
      s ∉ dfts.map Prod.fst → saveSections options acc dfts = some st2 →
        alookup st2 s = alookup acc s
  | [], acc, st2, _, heq => by
    simp only [saveSections, Option.some.injEq] at heq
    rw [← heq]
  | (s0, sd0) :: rest, acc, st2, hnotin, heq => by
    have hns0 : s ≠ s0 := by
      intro h2
      exact hnotin (by simp [h2])
    have hnrest : s ∉ rest.map Prod.fst := by
      intro h2
      exact hnotin (by simp [h2])
    simp only [saveSections] at heq
    cases hitems : saveItems options s0 [] sd0.opts with
    | none =>
      rw [hitems] at heq
      exact Option.noConfusion heq
    | some es0 =>
      rw [hitems] at heq
      rw [saveSections_preserve options s rest _ st2 hnrest heq]
      exact alookup_setAssoc_ne acc s0 s es0 hns0

theorem saveSections_spec (options : List (String × OptsGui)) :
    ∀ (dfts : List (String × SectionDefaults)) (acc : List (String × List (String × String))),
      (dfts.map Prod.fst).Nodup →
      (∀ p ∈ dfts, (p.2.opts.map Prod.fst).Nodup ∧
        ∀ (k : String) (od : OptDefault), (k, od) ∈ p.2.opts → k ≠ "helptext" →
          ((alookup options p.1).bind (fun so => alookup so k)).isSome) →
      ∃ st2, saveSections options acc dfts = some st2 ∧
        ∀ (s : String) (sd : SectionDefaults), (s, sd) ∈ dfts →
          ∃ es2, alookup st2 s = some es2 ∧
            ∀ (k : String) (od : OptDefault), (k, od) ∈ sd.opts → k ≠ "helptext" →
              ∃ og, (alookup options s).bind (fun so => alookup so k) = some og ∧
                alookup es2 k = some og.selected
  | [], acc, _, _ => ⟨acc, rfl, fun s sd hmem => absurd hmem (List.not_mem_nil _)⟩
  | (s0, sd0) :: rest, acc, hnd, hhyp => by
    have hnd2 : (s0 :: rest.map Prod.fst).Nodup := by simpa using hnd
    obtain ⟨hhead, htail⟩ := List.nodup_cons.mp hnd2
    have hh0 := hhyp (s0, sd0) (List.mem_cons_self _ _)
    obtain ⟨es0, heq0, hspec0⟩ := saveItems_spec options s0 sd0.opts [] hh0.1
      (fun k od hm hn => hh0.2 k od hm hn)
    obtain ⟨st2, heq, hspec⟩ := saveSections_spec options rest (setAssoc acc s0 es0) htail
      (fun p hp => hhyp p (List.mem_cons_of_mem _ hp))
    refine ⟨st2, ?_, ?_⟩
    · simp only [saveSections]
      rw [heq0]
      exact heq
    · intro s sd hmem
      rcases List.mem_cons.mp hmem with h2 | h2
      · obtain ⟨rfl, rfl⟩ := Prod.mk.injEq .. ▸ h2
        refine ⟨es0, ?_, hspec0⟩
        rw [saveSections_preserve options s rest _ st2 hhead heq]
        exact alookup_setAssoc_self acc s es0
      · exact hspec s sd h2

/-- C1. Save and load round trip: for any family of edited values, save_config
succeeds and writes a fresh configuration in which the stored value of every
non-helptext option of every defaults section is the string form of its edited
value, and re-loading that configuration through get_config displays exactly
the edited values; the default fallback can no longer fire because every
option now has a stored value. -/
theorem save_load_roundtrip (c : Config) (gui : GuiDict) (pi2 : List (String × String))
    (e : String → String → String)
    (hgc : get_config c = some (gui, pi2))
    (hsec : ∀ s ∈ c.defaults.map Prod.fst, s ∈ c.sections)
    (hnd : (c.defaults.map Prod.fst).Nodup)
    (hopts : ∀ p ∈ c.defaults, (p.2.opts.map Prod.fst).Nodup) :
    ∃ c2 gui2 pi3,
      save_config c (applyEdits e gui) = some c2 ∧
      get_config c2 = some (gui2, pi3) ∧
      ∀ (s : String) (sd : SectionDefaults), (s, sd) ∈ c.defaults →
        ∀ (k : String) (od : OptDefault), (k, od) ∈ sd.opts → k ≠ "helptext" →
          alookup (storedFor c2 s) k = some (e s k) ∧
          (guiOption gui2 s k).map OptGui.value = some (e s k) := by
  have hwf := get_config_wf hgc
  have hwfE := applyEdits_wf e gui hwf
  have hoptlk : ∀ (s : String) (sd : SectionDefaults), (s, sd) ∈ c.defaults →
      alookup (flattenGui (applyEdits e gui)) s =
        some ((fillOptions c s sd).map (fun op =>
          (op.1, { op.2 with selected := e s op.1 }))) := by
    intro s sd hmem
    have hs : s ∈ c.sections := hsec s (List.mem_map_of_mem Prod.fst hmem)
    obtain ⟨sd2, hsd2, hgsec⟩ := get_config_content hgc hs
    have hsd : alookup c.defaults s = some sd := alookup_of_mem_nodup hmem hnd
    rw [hsd] at hsd2
    have hsdeq : sd = sd2 := by injection hsd2
    subst hsdeq
    rw [flatten_lookup _ hwfE s, guiSection_applyEdits e gui s, hgsec]
    rfl
  have hoptitem : ∀ (s : String) (sd : SectionDefaults), (s, sd) ∈ c.defaults →
      ∀ (k : String) (od : OptDefault), (k, od) ∈ sd.opts → k ≠ "helptext" →
        (alookup (flattenGui (applyEdits e gui)) s).bind (fun so => alookup so k) =
          some ⟨od.default, od.helptext,
            (alookup (storedFor c s) k).getD od.default, e s k⟩ := by
    intro s sd hmem k od hk hne
    rw [hoptlk s sd hmem]
    simp only [Option.some_bind]
    have hfill : alookup (fillOptions c s sd) k =
        some ⟨od.default, od.helptext, (alookup (storedFor c s) k).getD od.default,
          (alookup (storedFor c s) k).getD od.default⟩ :=
      fillOptions_alookup c s sd.helptext sd.opts k od (hopts (s, sd) hmem) hk hne
    have h9 := alookup_map_value (fillOptions c s sd)
      (fun k1 og => { og with selected := e s k1 }) k
    rw [hfill] at h9
    exact h9
  obtain ⟨st2, hsave, hspec⟩ := saveSections_spec (flattenGui (applyEdits e gui)) c.defaults
    [] hnd (fun p hp => ⟨hopts p hp, fun k od hk hne => by
      rw [hoptitem p.1 p.2 hp k od hk hne]
      rfl⟩)
  refine ⟨{ sections := c.defaults.map Prod.fst, defaults := c.defaults, stored := st2 },
    ?_⟩
  have hreload : ∀ s2 ∈ c.defaults.map Prod.fst, (alookup c.defaults s2).isSome :=
    fun s2 hs2 => alookup_isSome_of_mem c.defaults s2 hs2
  obtain ⟨⟨gui2, pi3⟩, hgc2⟩ := getConfigAux_isSome
    { sections := c.defaults.map Prod.fst, defaults := c.defaults, stored := st2 }
    (c.defaults.map Prod.fst) [] [] hreload
  have hgc2b : get_config
      { sections := c.defaults.map Prod.fst, defaults := c.defaults, stored := st2 } =
        some (gui2, pi3) := hgc2
  refine ⟨gui2, pi3, ?_, hgc2b, ?_⟩
  · simp only [save_config]
    rw [hsave]
  · intro s sd hmem k od hk hne
    obtain ⟨es2, hst2, hes2⟩ := hspec s sd hmem
    obtain ⟨og, hog, hesk⟩ := hes2 k od hk hne
    have hogval : og = ⟨od.default, od.helptext,
        (alookup (storedFor c s) k).getD od.default, e s k⟩ := by
      have h10 := hoptitem s sd hmem k od hk hne
      rw [hog] at h10
      injection h10
    have hstored : alookup (storedFor
        { sections := c.defaults.map Prod.fst, defaults := c.defaults, stored := st2 } s) k =
          some (e s k) := by
      show alookup ((alookup st2 s).getD []) k = some (e s k)
      rw [hst2]
      simp only [Option.getD_some]
      rw [hesk, hogval]
    refine ⟨hstored, ?_⟩
    have hs2mem : s ∈ c.defaults.map Prod.fst := List.mem_map_of_mem Prod.fst hmem
    obtain ⟨sd3, hsd3, hgsec3⟩ := get_config_content hgc2b hs2mem
    have hsd : alookup c.defaults s = some sd := alookup_of_mem_nodup hmem hnd
    have hsd3b : alookup c.defaults s = some sd3 := hsd3
    have hsdeq : sd = sd3 := by
      have h11 : some sd = some sd3 := hsd.symm.trans hsd3b
      injection h11
    subst hsdeq
    have hfill3 : alookup (fillOptions
        { sections := c.defaults.map Prod.fst, defaults := c.defaults, stored := st2 } s sd)
          k = some ⟨od.default, od.helptext,
            (alookup (storedFor
              { sections := c.defaults.map Prod.fst, defaults := c.defaults,
                stored := st2 } s) k).getD od.default,
            (alookup (storedFor
              { sections := c.defaults.map Prod.fst, defaults := c.defaults,
                stored := st2 } s) k).getD od.default⟩ :=
      fillOptions_alookup _ s sd.helptext sd.opts k od (hopts (s, sd) hmem) hk hne
    simp only [guiOption, hgsec3, Option.some_bind]
    rw [hfill3, hstored]
    rfl

theorem filter_not_mem_cons (w : Nat) (D : List Nat) :
    ∀ l : List Nat,
      l.filter (fun x => decide (x ∉ w :: D)) =
        (l.filter (fun x => decide (x ∉ D))).filter (fun x => decide (x ≠ w))
  | [] => rfl
  | a :: t => by
    have ih := filter_not_mem_cons w D t
    by_cases haw : a = w
    · subst haw
      by_cases had : a ∈ D
      · simp [List.filter_cons, had, ih]
      · simp [List.filter_cons, had, ih]
    · by_cases had : a ∈ D
      · simp [List.filter_cons, had, haw, ih]
      · simp [List.filter_cons, had, haw, ih]

theorem filter_out_fresh (m : Nat) (D : List Nat) (hD : ∀ d ∈ D, d < m) :
    (List.range (m + 1)).filter (fun x => decide (x ∉ D)) =
      (List.range m).filter (fun x => decide (x ∉ D)) ++ [m] := by
  have hm : m ∉ D := fun h => absurd (hD m h) (lt_irrefl m)
  simp [List.range_succ, List.filter_append, hm]

theorem popup_config_spec (n : String) (st : PopupState) (h : PopupInv st) :
    (popup_config n st).popup = [(n, st.next)] ∧ PopupInv (popup_config n st) := by
  obtain ⟨hlive, hlen, hdes⟩ := h
  cases hpop : st.popup with
  | nil =>
    have hpc : popup_config n st =
        { popup := [(n, st.next)], destroyed := st.destroyed, next := st.next + 1 } := by
      simp [popup_config, hpop, setAssoc]
    have hempty : liveWindows st = [] := by
      rw [hlive, hpop]
      rfl
    have hlive2 : liveWindows (popup_config n st) = [st.next] := by
      rw [hpc]
      show (List.range (st.next + 1)).filter (fun x => decide (x ∉ st.destroyed)) = [st.next]
      rw [filter_out_fresh st.next st.destroyed hdes]
      have : (List.range st.next).filter (fun x => decide (x ∉ st.destroyed)) = [] := hempty
      rw [this]
      rfl
    refine ⟨by rw [hpc], ?_, ?_, ?_⟩
    · rw [hlive2, hpc]
      rfl
    · rw [hpc]
      simp
    · rw [hpc]
      intro d hd
      exact Nat.lt_succ_of_lt (hdes d hd)
  | cons p rest =>
    rcases p with ⟨k0, w⟩
    have hrlen : rest.length + 1 ≤ 1 := by
      have h13 := hlen
      rw [hpop] at h13
      simpa using h13
    have hrest : rest = [] := List.eq_nil_of_length_eq_zero (by omega)
    subst hrest
    have hpc : popup_config n st =
        { popup := [(n, st.next)], destroyed := w :: st.destroyed,
          next := st.next + 1 } := by
      simp [popup_config, hpop, setAssoc]
    have hwlive : liveWindows st = [w] := by
      rw [hlive, hpop]
      rfl
    have hwlt : w < st.next := by
      have hmem : w ∈ liveWindows st := by
        rw [hwlive]
        exact List.mem_cons_self _ _
      exact List.mem_range.mp (List.mem_filter.mp hmem).1
    have hDlt : ∀ d ∈ w :: st.destroyed, d < st.next := by
      intro d hd
      rcases List.mem_cons.mp hd with h2 | h2
      · rw [h2]
        exact hwlt
      · exact hdes d h2
    have hlive2 : liveWindows (popup_config n st) = [st.next] := by
      rw [hpc]
      show (List.range (st.next + 1)).filter (fun x => decide (x ∉ w :: st.destroyed)) =
        [st.next]
      rw [filter_out_fresh st.next (w :: st.destroyed) hDlt]
      rw [filter_not_mem_cons w st.destroyed (List.range st.next)]
      have h14 : (List.range st.next).filter (fun x => decide (x ∉ st.destroyed)) = [w] :=
        hwlive
      rw [h14]
      simp
    refine ⟨by rw [hpc], ?_, ?_, ?_⟩
    · rw [hlive2, hpc]
      rfl
    · rw [hpc]
      simp
    · rw [hpc]
      intro d hd
      exact Nat.lt_succ_of_lt (hDlt d hd)

theorem popup_inv_foldl :
    ∀ (ns : List String) (st : PopupState), PopupInv st →
      PopupInv (ns.foldl (fun st2 n => popup_config n st2) st)
  | [], _, h => h
  | n :: ns, st, h => popup_inv_foldl ns _ (popup_config_spec n st h).2

theorem initPopup_inv : PopupInv initPopup := by
  refine ⟨rfl, by simp [initPopup], ?_⟩
  intro d hd
  exact absurd hd (List.not_mem_nil d)

/-- C7. Single instance invariant of popup_config: starting from the empty
registry, after every sequence of calls ending in one for identifier n exactly
one popup is live, it is the freshly created window, it is registered under n,
and no window registered before the last call is still live. -/
theorem popup_single_live (ns : List String) (n : String) :
    ∃ w, (openAll (ns ++ [n])).popup = [(n, w)] ∧
      liveWindows (openAll (ns ++ [n])) = [w] ∧
      ∀ p ∈ (openAll ns).popup, p.2 ≠ w := by
  have hinv : PopupInv (openAll ns) := popup_inv_foldl ns initPopup initPopup_inv
  have hfold : openAll (ns ++ [n]) = popup_config n (openAll ns) := by
    simp [openAll, List.foldl_append]
  obtain ⟨hpop, hinv2⟩ := popup_config_spec n (openAll ns) hinv
  refine ⟨(openAll ns).next, by rw [hfold]; exact hpop, ?_, ?_⟩
  · rw [hfold, hinv2.1, hpop]
    rfl
  · intro p hp
    have hin : p.2 ∈ liveWindows (openAll ns) := by
      rw [hinv.1]
      exact List.mem_map_of_mem Prod.snd hp
    have hlt : p.2 < (openAll ns).next :=
      List.mem_range.mp (List.mem_filter.mp hin).1
    exact fun h2 => absurd (h2 ▸ hlt) (lt_irrefl _)

/-- C8. Frame property of Cancel: whatever edits are applied in the dialog,
the Cancel command only destroys the window; the collaborator configuration
object and the count of file writes are untouched, and the save path is not
invoked. -/
theorem cancel_frame (d : Dialog) (e : String → String → String) :
    (cancel { d with gui := applyEdits e d.gui }).cfg = d.cfg ∧
    (cancel { d with gui := applyEdits e d.gui }).fileSaves = d.fileSaves ∧
    (cancel { d with gui := applyEdits e d.gui }).isOpen = false :=
  ⟨rfl, rfl, rfl⟩

theorem load_value_fallback_witness :
    get_config demoConfig = some (demoGui, demoPinfo) ∧
    "global" ∈ demoConfig.sections ∧
    (guiOption demoGui "global" "opt1").map OptGui.value =
      some ((alookup (storedFor demoConfig "global") "opt1").getD "5") :=
  ⟨rfl, by decide,
    load_value_fallback demoConfig demoGui demoPinfo "global" "opt1"
      ⟨"gh", [("opt1", ⟨"5", "h1"⟩), ("opt2", ⟨"a", "h2"⟩)]⟩ ⟨"5", "h1"⟩
      rfl (by decide) rfl (by decide) (by decide) (by decide)⟩

theorem category_partition_witness :
    get_config demoConfig = some (demoGui, demoPinfo) ∧
    categoriesContaining demoGui "extract.one" = [sectionCategory "extract.one"] :=
  ⟨rfl, category_partition demoConfig demoGui demoPinfo "extract.one" rfl (by decide)⟩

theorem flatten_eq_load_witness :
    get_config demoConfig = some (demoGui, demoPinfo) ∧
    alookup (flattenGui demoGui) "extract.two" = guiSection demoGui "extract.two" :=
  ⟨rfl, flatten_eq_load demoConfig demoGui demoPinfo rfl "extract.two"⟩

theorem reset_lookup_safe_witness :
    get_config demoConfig = some (demoGui, demoPinfo) ∧
    ∃ opts, resetLookup demoGui "extract.one" = some opts ∧
      ∀ k od, (k, od) ∈ [(("opt1" : String), (⟨"x", "h3"⟩ : OptDefault))] →
        k ≠ "helptext" → (alookup opts k).isSome :=
  ⟨rfl, reset_lookup_safe demoConfig demoGui demoPinfo "extract.one"
    ⟨"eh", [("opt1", ⟨"x", "h3"⟩)]⟩ rfl (by decide) rfl (by decide)⟩

theorem reset_sets_defaults_witness :
    reset demoConfig demoGui = some demoResetGui ∧
    ∃ og, (resetLookup demoResetGui "global").bind (fun o => alookup o "opt1") = some og ∧
      og.selected = "5" :=
  ⟨rfl, reset_sets_defaults demoConfig demoGui demoResetGui (by decide) rfl "global"
    ⟨"gh", [("opt1", ⟨"5", "h1"⟩), ("opt2", ⟨"a", "h2"⟩)]⟩ (by decide) (by decide)
    "opt1" ⟨"5", "h1"⟩ (by decide) (by decide)⟩

theorem save_load_roundtrip_witness :
    get_config demoConfig = some (demoGui, demoPinfo) ∧
    ∃ c2 gui2 pi3,
      save_config demoConfig (applyEdits (fun _ _ => "9") demoGui) = some c2 ∧
      get_config c2 = some (gui2, pi3) ∧
      ∀ (s : String) (sd : SectionDefaults), (s, sd) ∈ demoConfig.defaults →
        ∀ (k : String) (od : OptDefault), (k, od) ∈ sd.opts → k ≠ "helptext" →
          alookup (storedFor c2 s) k = some "9" ∧
          (guiOption gui2 s k).map OptGui.value = some "9" :=
  ⟨rfl, save_load_roundtrip demoConfig demoGui demoPinfo (fun _ _ => "9") rfl
    (by decide) (by decide) (by decide)⟩

theorem build_page_nested_iff_witness :
    alookup demoGui "extract" = some demoExtractInner ∧
    (1 < demoExtractInner.length →
      ∃ tabs, build_page demoGui "extract" = some (Page.nested tabs)) ∧
    ((∃ tabs, build_page demoGui "extract" = some (Page.nested tabs)) ↔
      ∃ q ∈ demoExtractInner, q.1 ≠ "extract") :=
  ⟨rfl, build_page_nested_iff demoGui "extract" demoExtractInner rfl (by decide)⟩

theorem build_global_first_witness :
    "global" ∈ demoGui.map Prod.fst ∧
    (buildCategories demoGui).head? = some "global" ∧
    List.Sorted (fun a b => strLe a b = true) (buildCategories demoGui).tail := by
  refine ⟨by decide, (build_global_first demoGui).1 (by decide), ?_⟩
  have h2 := (build_global_first demoGui).2
  rw [if_pos (show "global" ∈ demoGui.map Prod.fst by decide)] at h2
  exact h2
